import Mathlib

set_option maxRecDepth 100000

/-!
Verification development for the Rufus web crawler / content extractor.

The Python sources under verification are `crawler.py` (class `WebCrawler`),
`client.py` (class `RufusClient`), and `extractor.py` (class
`ContentExtractor`).  Pure string and list manipulation is translated
directly; external collaborators (the HTTP session, BeautifulSoup parsing,
PyPDF2 text extraction, the sentence-transformer embedding model) are
modelled as oracle functions supplied as parameters, exactly at the call
boundaries where the Python code invokes them.  Machine-level details:
Python `int` is modelled by `Nat`/`Int`; MD5 (from `hashlib`) is
implemented in full so that cache keys are the real ones; Python strings
are Lean `String`s (sequences of unicode scalars, matching Python `len`
and indexing for the strings involved).
-/

namespace Rufus

/-! ## Basic character and list helpers -/

/-- Lower-case an ASCII letter, identity otherwise.  Models Python
`str.lower()` on the ASCII strings (URLs, hosts) this code handles. -/
def lowerChar (c : Char) : Char :=
  if 'A' ≤ c ∧ c ≤ 'Z' then Char.ofNat (c.toNat + 32) else c

/-- Lower-case every character of a character list. -/
def lowerL (l : List Char) : List Char := l.map lowerChar

/-- Lower-case a string (Python `str.lower()` for ASCII content). -/
def lowerS (s : String) : String := ⟨lowerL s.data⟩

/-- Does `pat` occur as a contiguous sublist of `l`?  Models Python's
`pat in s` substring test. -/
def hasSubL (pat : List Char) : List Char → Bool
  | [] => pat.isPrefixOf []
  | c :: rest => pat.isPrefixOf (c :: rest) || hasSubL pat rest

/-- Substring containment on strings: Python `pat in s`. -/
def hasSubS (pat s : String) : Bool := hasSubL pat.data s.data

/-- Does the string end with the given suffix?  Python `str.endswith`. -/
def endsWithS (s suffix : String) : Bool := suffix.data.isSuffixOf s.data

/-- Split a character list at every occurrence of the character `sep`,
keeping empty pieces.  Models Python `str.split(sep)` for a one-character
separator. -/
def splitOnCharL (sep : Char) : List Char → List (List Char)
  | [] => [[]]
  | c :: rest =>
    if c = sep then
      [] :: splitOnCharL sep rest
    else
      match splitOnCharL sep rest with
      | [] => [[c]]
      | p :: ps => (c :: p) :: ps

/-! ## MD5 (Python `hashlib.md5(...).hexdigest()`)

The crawler keys its page cache by `hashlib.md5(url.encode()).hexdigest()`
(crawler.py line 35) and the client builds crawl / extraction cache keys
the same way.  MD5 is implemented here in full (RFC 1321) over byte lists,
with 32-bit words as `Nat` reduced mod `2 ^ 32`. -/

/-- UTF-8 encoding of one unicode scalar, as a byte list.  Models Python
`str.encode()` for one character. -/
def utf8Bytes (c : Char) : List Nat :=
  let n := c.toNat
  if n < 0x80 then [n]
  else if n < 0x800 then [0xC0 + n / 64, 0x80 + n % 64]
  else if n < 0x10000 then
    [0xE0 + n / 4096, 0x80 + (n / 64) % 64, 0x80 + n % 64]
  else
    [0xF0 + n / 262144, 0x80 + (n / 4096) % 64, 0x80 + (n / 64) % 64,
      0x80 + n % 64]

/-- UTF-8 byte sequence of a string: Python `s.encode()`. -/
def strBytes (s : String) : List Nat := (s.data.map utf8Bytes).flatten

/-- 32-bit truncation. -/
def m32 (n : Nat) : Nat := n % 4294967296

/-- 32-bit bitwise complement. -/
def not32 (n : Nat) : Nat := 4294967295 ^^^ n

/-- 32-bit left rotation. -/
def rotl32 (x s : Nat) : Nat := m32 ((x <<< s) ||| (x >>> (32 - s)))

/-- The 64 MD5 sine-derived constants `K[i]`. -/
def md5K : List Nat :=
  [0xd76aa478, 0xe8c7b756, 0x242070db, 0xc1bdceee,
   0xf57c0faf, 0x4787c62a, 0xa8304613, 0xfd469501,
   0x698098d8, 0x8b44f7af, 0xffff5bb1, 0x895cd7be,
   0x6b901122, 0xfd987193, 0xa679438e, 0x49b40821,
   0xf61e2562, 0xc040b340, 0x265e5a51, 0xe9b6c7aa,
   0xd62f105d, 0x02441453, 0xd8a1e681, 0xe7d3fbc8,
   0x21e1cde6, 0xc33707d6, 0xf4d50d87, 0x455a14ed,
   0xa9e3e905, 0xfcefa3f8, 0x676f02d9, 0x8d2a4c8a,
   0xfffa3942, 0x8771f681, 0x6d9d6122, 0xfde5380c,
   0xa4beea44, 0x4bdecfa9, 0xf6bb4b60, 0xbebfbc70,
   0x289b7ec6, 0xeaa127fa, 0xd4ef3085, 0x04881d05,
   0xd9d4d039, 0xe6db99e5, 0x1fa27cf8, 0xc4ac5665,
   0xf4292244, 0x432aff97, 0xab9423a7, 0xfc93a039,
   0x655b59c3, 0x8f0ccc92, 0xffeff47d, 0x85845dd1,
   0x6fa87e4f, 0xfe2ce6e0, 0xa3014314, 0x4e0811a1,
   0xf7537e82, 0xbd3af235, 0x2ad7d2bb, 0xeb86d391]

/-- The 64 MD5 per-round left-rotation amounts `s[i]`. -/
def md5S : List Nat :=
  [7, 12, 17, 22, 7, 12, 17, 22, 7, 12, 17, 22, 7, 12, 17, 22,
   5, 9, 14, 20, 5, 9, 14, 20, 5, 9, 14, 20, 5, 9, 14, 20,
   4, 11, 16, 23, 4, 11, 16, 23, 4, 11, 16, 23, 4, 11, 16, 23,
   6, 10, 15, 21, 6, 10, 15, 21, 6, 10, 15, 21, 6, 10, 15, 21]

/-- MD5 round mixing function for round `i` on words `b c d`. -/
def md5F (i b c d : Nat) : Nat :=
  if i < 16 then (b &&& c) ||| (not32 b &&& d)
  else if i < 32 then (d &&& b) ||| (not32 d &&& c)
  else if i < 48 then b ^^^ c ^^^ d
  else c ^^^ (b ||| not32 d)

/-- MD5 message-word index for round `i`. -/
def md5G (i : Nat) : Nat :=
  if i < 16 then i
  else if i < 32 then (5 * i + 1) % 16
  else if i < 48 then (3 * i + 5) % 16
  else (7 * i) % 16

/-- One MD5 round: state `(a, b, c, d)`, message words `msg`, round `i`. -/
def md5Round (msg : List Nat) (st : Nat × Nat × Nat × Nat) (i : Nat) :
    Nat × Nat × Nat × Nat :=
  let (a, b, c, d) := st
  let f := m32 (md5F i b c d + a + md5K.getD i 0 + msg.getD (md5G i) 0)
  (d, m32 (b + rotl32 f (md5S.getD i 0)), b, c)

/-- Split a byte list into little-endian 32-bit words (4 bytes each). -/
def bytesToWords : List Nat → List Nat
  | b0 :: b1 :: b2 :: b3 :: rest =>
    (b0 + 256 * b1 + 65536 * b2 + 16777216 * b3) :: bytesToWords rest
  | _ => []

/-- Split a list into chunks of 64 elements (MD5 blocks); the first
argument is fuel (an upper bound on the number of chunks, here the list
length), making the recursion structural. -/
def chunks64Aux : Nat → List Nat → List (List Nat)
  | 0, _ => []
  | _ + 1, [] => []
  | fuel + 1, c :: cs =>
    (c :: cs).take 64 :: chunks64Aux fuel ((c :: cs).drop 64)

/-- Split a list into chunks of 64 elements (MD5 blocks). -/
def chunks64 (l : List Nat) : List (List Nat) := chunks64Aux l.length l

/-- Little-endian byte rendering of `n` using `k` bytes. -/
def leBytes : Nat → Nat → List Nat
  | 0, _ => []
  | k + 1, n => n % 256 :: leBytes k (n / 256)

/-- MD5 padding: append `0x80`, zero bytes to 56 mod 64, then the 8-byte
little-endian bit length. -/
def md5Pad (msg : List Nat) : List Nat :=
  let padLen := (120 - (msg.length + 1) % 64) % 64
  msg ++ [0x80] ++ List.replicate padLen 0 ++ leBytes 8 (8 * msg.length)

/-- Process one 64-byte block, updating the running MD5 state. -/
def md5Block (st : Nat × Nat × Nat × Nat) (block : List Nat) :
    Nat × Nat × Nat × Nat :=
  let msg := bytesToWords block
  let (a0, b0, c0, d0) := st
  let (a, b, c, d) := (List.range 64).foldl (md5Round msg) (a0, b0, c0, d0)
  (m32 (a0 + a), m32 (b0 + b), m32 (c0 + c), m32 (d0 + d))

/-- Hex character for a nibble (lower case, as `hexdigest` produces). -/
def hexDigit (n : Nat) : Char :=
  if n < 10 then Char.ofNat (48 + n) else Char.ofNat (87 + n)

/-- Two lower-case hex characters for one byte. -/
def byteHex (b : Nat) : List Char := [hexDigit (b / 16), hexDigit (b % 16)]

/-- MD5 digest of a byte list, rendered as the 32-character lower-case
hex string that Python's `hexdigest()` returns. -/
def md5Hex (msg : List Nat) : String :=
  let (a, b, c, d) :=
    (chunks64 (md5Pad msg)).foldl md5Block
      (0x67452301, 0xefcdab89, 0x98badcfe, 0x10325476)
  ⟨((leBytes 4 a ++ leBytes 4 b ++ leBytes 4 c ++ leBytes 4 d).map
      byteHex).flatten⟩

/-- `hashlib.md5(s.encode()).hexdigest()` for a string `s`. -/
def md5HexOfString (s : String) : String := md5Hex (strBytes s)

example : md5HexOfString "abc" = "900150983cd24fb0d6963f7d28e17f72" := by
  decide

example : md5HexOfString "" = "d41d8cd98f00b204e9800998ecf8427e" := by
  decide

/-! ## URL parsing (`urllib.parse.urlparse` / `urlunparse`)

The Python sources use `urlparse`, `urlunparse` and `urljoin` from the
standard library.  `urlparse`/`urlunparse` are modelled here following
CPython's algorithm for hierarchical URLs; the `params` component (a `;`
inside the last path segment) is modelled as always empty, which is exact
for every URL these claims involve.  `urljoin` is used only to resolve
anchor hrefs against the page URL: that resolution happens inside the
HTML-parsing collaborator boundary and is modelled by letting the parse
oracle return absolute link URLs (see `Soup`). -/

/-- Split a character list at the first occurrence of `sep`:
`(before, some after)` when found, `(l, none)` otherwise. -/
def splitAtFirst (sep : Char) : List Char → List Char × Option (List Char)
  | [] => ([], none)
  | c :: rest =>
    if c = sep then ([], some rest)
    else
      let r := splitAtFirst sep rest
      (c :: r.1, r.2)

/-- Characters allowed in a URL scheme (CPython `scheme_chars`). -/
def isSchemeChar (c : Char) : Bool :=
  c.isAlpha || c.isDigit || c = '+' || c = '-' || c = '.'

/-- The components `urlparse` returns (with `params` modelled as empty). -/
structure UrlParts where
  scheme : String
  netloc : String
  path : String
  query : String
  fragment : String
deriving DecidableEq, Repr

/-- `urllib.parse.urlparse` on a character list: split off a valid scheme
at the first `:`, a netloc after a leading `//` (up to `/`, `?` or `#`),
then the fragment at the first `#` and the query at the first `?`.  The
scheme is lower-cased, the netloc is returned as written (callers
lower-case it explicitly, as the Python code does). -/
def urlparseL (l : List Char) : UrlParts :=
  let (scheme, rest) :=
    match splitAtFirst ':' l with
    | (before, some after) =>
      if before ≠ [] && (before.headD ' ').isAlpha && before.all isSchemeChar
      then (lowerL before, after)
      else ([], l)
    | (_, none) => ([], l)
  let (netloc, rest) :=
    match rest with
    | '/' :: '/' :: r =>
      (r.takeWhile (fun c => c ≠ '/' && c ≠ '?' && c ≠ '#'),
       r.dropWhile (fun c => c ≠ '/' && c ≠ '?' && c ≠ '#'))
    | _ => ([], rest)
  let (beforeHash, fragOpt) := splitAtFirst '#' rest
  let (path, queryOpt) := splitAtFirst '?' beforeHash
  { scheme := ⟨scheme⟩
    netloc := ⟨netloc⟩
    path := ⟨path⟩
    query := ⟨(queryOpt.getD [])⟩
    fragment := ⟨(fragOpt.getD [])⟩ }

/-- `urllib.parse.urlparse` on a string. -/
def urlparseS (url : String) : UrlParts := urlparseL url.data

/-- `urllib.parse.urlunparse` (with empty `params`), following CPython's
`urlunsplit`: prepend `//netloc` when a netloc is present (inserting a
`/` before a relative path), prefix the scheme with `:`, then append
non-empty query and fragment. -/
def urlunparseS (p : UrlParts) : String :=
  let url := p.path
  let url :=
    if p.netloc ≠ "" || (url.data.take 2 = ['/', '/']) then
      let url := if url ≠ "" && url.data.take 1 ≠ ['/'] then "/" ++ url else url
      "//" ++ p.netloc ++ url
    else url
  let url := if p.scheme ≠ "" then p.scheme ++ ":" ++ url else url
  let url := if p.query ≠ "" then url ++ "?" ++ p.query else url
  if p.fragment ≠ "" then url ++ "#" ++ p.fragment else url

/-- Remove all trailing occurrences of `c`: Python `str.rstrip(c)`. -/
def rstripCharL (c : Char) (l : List Char) : List Char :=
  (l.reverse.dropWhile (· = c)).reverse

/-! ## `RufusClient._normalize_url` (client.py lines 145–193) -/

/-- The index-file suffixes the normalizer strips, in source order. -/
def indexFiles : List String := ["/index.php", "/index.html", "/index.htm"]

/-- Strip the first matching index-file suffix from the path, collapsing
an emptied path to `/` (the `for`/`break` loop of client.py 169–177). -/
def stripIndexFiles (path : String) : String :=
  match indexFiles.find? (fun f => endsWithS path f) with
  | none => path
  | some f =>
    let stripped : String := ⟨path.data.take (path.data.length - f.data.length)⟩
    if stripped = "" then "/" else stripped

/-- `RufusClient._normalize_url`: lower-case the host, drop the fragment,
strip trailing slashes from a non-root path, strip a default index file
(collapsing to the directory, or root), make an empty path `/`, and
reassemble without the fragment. -/
def normalizeUrl (url : String) : String :=
  let parsed := urlparseS url
  let netloc := lowerS parsed.netloc
  let path := parsed.path
  let path :=
    if endsWithS path "/" && 1 < path.data.length then rstripCharL '/' path.data |>.asString
    else path
  let path := stripIndexFiles path
  let path := if path = "" then "/" else path
  urlunparseS { scheme := parsed.scheme, netloc := netloc, path := path,
                query := parsed.query, fragment := "" }

example : normalizeUrl "http://Example.com/page/" = "http://example.com/page" := by decide

example : normalizeUrl "http://a.com/p#x" = "http://a.com/p" := by decide

example : normalizeUrl "http://a.com" = "http://a.com/" := by decide

example : normalizeUrl "http://a.com/x/index.html" = "http://a.com/x" := by decide

example : normalizeUrl "http://a.com/x?q=1#frag" = "http://a.com/x?q=1" := by decide

/-! ## `WebCrawler._get_page_cache_key` (crawler.py lines 33–35) -/

/-- `hashlib.md5(url.encode()).hexdigest()`: the page cache key is the MD5
hex digest of the URL string exactly as given (no normalization). -/
def getPageCacheKey (url : String) : String := md5HexOfString url

/-! ## Content extractor (`extractor.py`, class `ContentExtractor`)

`_split_into_chunks` (lines 127–160) first collapses whitespace with
`re.sub(r'\s+', ' ', text).strip()`, splits into sentences with
`re.split(r'(?<=[.!?])\s+', text)`, then greedily accumulates sentences
into chunks.  On the cleaned text every whitespace run is a single space,
so the sentence-split regex matches exactly the single spaces preceded by
`.`, `!` or `?`; the splitter below implements that. -/

/-- Python `\s` whitespace class, restricted to its ASCII members (the
content handled here); `re.sub(r'\s+', ' ', ...)` collapses runs of
these. -/
def isPyWs (c : Char) : Bool :=
  c = ' ' || c = '\t' || c = '\n' || c = '\r' || c = '\x0B' || c = '\x0C'

/-- Collapse every whitespace run to a single space; the flag records
whether the previous character was whitespace. -/
def collapseWsAux : Bool → List Char → List Char
  | _, [] => []
  | prevWs, c :: rest =>
    if isPyWs c then
      if prevWs then collapseWsAux true rest
      else ' ' :: collapseWsAux true rest
    else c :: collapseWsAux false rest

/-- `re.sub(r'\s+', ' ', text)` on a character list. -/
def collapseWsL (l : List Char) : List Char := collapseWsAux false l

/-- `str.strip()` after whitespace collapsing: the only whitespace left is
`' '`, so stripping spaces from both ends is exact. -/
def stripSpacesL (l : List Char) : List Char :=
  ((l.dropWhile (· = ' ')).reverse.dropWhile (· = ' ')).reverse

/-- `re.sub(r'\s+', ' ', text).strip()` (extractor.py line 135). -/
def cleanTextL (l : List Char) : List Char := stripSpacesL (collapseWsL l)

/-- String version of `cleanTextL`. -/
def cleanTextS (s : String) : String := ⟨cleanTextL s.data⟩

/-- Sentence-ending punctuation of the lookbehind `(?<=[.!?])`. -/
def sentencePunct (c : Char) : Bool := c = '.' || c = '!' || c = '?'

/-- Is the most recently read character (head of the reversed
accumulator) sentence-ending punctuation? -/
def headPunct (acc : List Char) : Bool :=
  match acc with
  | p :: _ => sentencePunct p
  | [] => false

/-- `re.split(r'(?<=[.!?])\s+', text)` on whitespace-collapsed text:
split at every space whose predecessor is `.`, `!` or `?`, the space
itself being consumed.  `acc` holds the current sentence reversed. -/
def splitSentAux : List Char → List Char → List (List Char)
  | [], acc => [acc.reverse]
  | c :: rest, acc =>
    if c = ' ' && headPunct acc then
      acc.reverse :: splitSentAux rest []
    else splitSentAux rest (c :: acc)

/-- Sentence split of a (cleaned) character list. -/
def splitSentencesL (l : List Char) : List (List Char) := splitSentAux l []

/-- Join with single spaces: `' '.join(...)` on character lists. -/
def joinSpaceL : List (List Char) → List Char
  | [] => []
  | [x] => x
  | x :: xs => x ++ ' ' :: joinSpaceL xs

/-- `' '.join(strings)`. -/
def pyJoinSpace (l : List String) : String := ⟨joinSpaceL (l.map String.data)⟩

/-- The greedy sentence-accumulation loop of `_split_into_chunks` (lines
140–158), kept at the level of sentence groups: `cur` is
`current_chunk` (the sentences of the chunk being built, in order) and
`curLen` is `current_length` (the sum of their lengths — the code does
not count the joining spaces).  When adding the next sentence would push
`curLen` past `chunk_size` the accumulated chunk is emitted (if
non-empty) and a new one starts with that sentence; the final partial
accumulation is flushed at the end. -/
def chunkGroupsAux (n : Nat) :
    List (List Char) → List (List Char) → Nat → List (List (List Char))
  | [], cur, _ => if cur.isEmpty then [] else [cur]
  | s :: rest, cur, curLen =>
    if curLen + s.length > n then
      if cur.isEmpty then chunkGroupsAux n rest [s] s.length
      else cur :: chunkGroupsAux n rest [s] s.length
    else chunkGroupsAux n rest (cur ++ [s]) (curLen + s.length)

/-- The sentence groups of `_split_into_chunks n text`. -/
def chunkGroups (n : Nat) (text : String) : List (List (List Char)) :=
  chunkGroupsAux n (splitSentencesL (cleanTextL text.data)) [] 0

/-- `ContentExtractor._split_into_chunks`: each emitted chunk is
`' '.join(current_chunk)`; emitting the joined string at flush time (as
the Python loop does) equals joining each final sentence group. -/
def splitIntoChunks (n : Nat) (text : String) : List String :=
  (chunkGroups n text).map (fun g => (⟨joinSpaceL g⟩ : String))

example : splitIntoChunks 6 "ab. cd." = ["ab. cd."] := by decide

example : splitIntoChunks 5 "ab. cd." = ["ab.", "cd."] := by decide

example : splitIntoChunks 1024 "" = [""] := by decide

/-- A node of a navigation path: the `{'url': ..., 'title': ...}` dicts
the crawler pushes onto `path`. -/
structure PathNode where
  url : String
  title : String
deriving DecidableEq, Repr

/-- The page dictionaries `extract` consumes (the crawler's page data). -/
structure XPage where
  url : String
  title : String
  text : String
  depth : Nat
  contentType : String
  navigationPath : List PathNode
deriving DecidableEq, Repr

/-- The dictionaries `extract` appends to `extracted_content` (extractor.py
lines 103–114).  Relevance scores are the values of the external
cosine-similarity collaborator, modelled as exact rationals. -/
structure XRecord where
  url : String
  content : String
  fullContent : String
  title : String
  depth : Nat
  relevanceScore : ℚ
  chunkIndex : Nat
  navigationPath : List PathNode
  contentType : String
  totalChunks : Nat
deriving DecidableEq

/-- The records one page contributes, in chunk order (extractor.py lines
51–114): chunk the page text, and retain chunk `i` iff its similarity
against the instructions strictly exceeds the threshold.  `sim instr c`
is the external collaborator computing the cosine similarity between the
instruction embedding and the embedding of chunk `c`; a page with zero
chunks contributes nothing (the `continue` at line 57). -/
def pageRecords (sim : String → String → ℚ) (thr : ℚ) (chunkSize : Nat)
    (instr : String) (page : XPage) : List XRecord :=
  let chunks := splitIntoChunks chunkSize page.text
  if chunks.length = 0 then []
  else
    chunks.enum.filterMap fun ic =>
      if thr < sim instr ic.2 then
        some { url := page.url, content := ic.2, fullContent := page.text,
               title := page.title, depth := page.depth,
               relevanceScore := sim instr ic.2, chunkIndex := ic.1,
               navigationPath := page.navigationPath,
               contentType := page.contentType, totalChunks := chunks.length }
      else none

/-- `extracted_content` as collected by the page loop, before sorting:
page order, then chunk order (discovery order). -/
def extractCollected (sim : String → String → ℚ) (thr : ℚ) (chunkSize : Nat)
    (pages : List XPage) (instr : String) : List XRecord :=
  (pages.map (pageRecords sim thr chunkSize instr)).flatten

/-- Stable descending insertion: a record is placed after every record
whose score is greater than or equal to its own, so equal scores keep
their existing (discovery) order. -/
def insertByScoreDesc (x : XRecord) : List XRecord → List XRecord
  | [] => [x]
  | a :: as =>
    if x.relevanceScore ≤ a.relevanceScore then a :: insertByScoreDesc x as
    else x :: a :: as

/-- `extracted_content.sort(key=lambda x: x['relevance_score'],
reverse=True)`: Python's sort is stable, and with `reverse=True` equal
elements still keep their original order; a stable descending sort is
uniquely determined by that, and is realized here by left-to-right stable
insertion. -/
def sortByScoreDesc (l : List XRecord) : List XRecord :=
  l.foldl (fun acc x => insertByScoreDesc x acc) []

/-- `ContentExtractor.extract(pages, instructions)` (extractor.py lines
21–125): collect the above-threshold chunk records in discovery order,
then stable-sort by descending relevance score. -/
def extract (sim : String → String → ℚ) (thr : ℚ) (chunkSize : Nat)
    (pages : List XPage) (instr : String) : List XRecord :=
  sortByScoreDesc (extractCollected sim thr chunkSize pages instr)

/-! ## The crawler (`crawler.py`, class `WebCrawler`)

External collaborators and how they are modelled:
* `self.session.get(url)` — an oracle `web : String → Option FetchOk`;
  `none` models a raised transport exception, `some r` a response with
  status code and body.  Every issued request is appended to the
  instrumentation log `fetchedLog` (the politeness `time.sleep` is pure
  timing and has no modelled effect).
* `BeautifulSoup(html, 'html.parser')` together with the per-link
  `urljoin(url, link['href'])` resolution and the boilerplate-filtering
  pipeline `_extract_main_content` (which operates entirely through
  BeautifulSoup selectors) — an oracle `parse : String → Soup` giving the
  page title (`soup.title.string`, `none` when absent), the anchor hrefs
  already resolved to absolute URLs, and the cleaned main text.  No
  claim under verification inspects the cleaned text's contents.
* `PyPDF2` text extraction (`_extract_pdf_text`) — an oracle
  `pdfExtract : String → String` from the response body to the extracted
  text, `""` for an extraction failure (as the Python helper returns). -/

/-- What the crawler stores in `self.page_cache[cache_key]`: the page
data minus `depth` and `navigation_path` (crawler.py lines 446–449). -/
structure CacheEntry where
  url : String
  title : String
  html : String
  text : String
  contentType : String
deriving DecidableEq, Repr

/-- The page-data dictionaries `crawl` returns (crawler.py 435–443). -/
structure PageRecord where
  url : String
  title : String
  html : String
  text : String
  depth : Nat
  contentType : String
  navigationPath : List PathNode
deriving DecidableEq, Repr

/-- A successfully returned HTTP response: status code, `response.text`
(decoded body) and `response.content` (raw bytes, kept opaque). -/
structure FetchOk where
  statusCode : Nat
  text : String
  content : String

/-- The data the BeautifulSoup collaborator yields for one HTML document:
title (`soup.title.string`; `none` when the tag or string is absent),
anchor hrefs resolved to absolute URLs with `urljoin`, and the cleaned
main-content text produced by `_extract_main_content`. -/
structure Soup where
  title : Option String
  links : List String
  mainText : String

/-- The mutable state of a `WebCrawler` instance, plus the `fetchedLog`
instrumentation recording each `session.get` call of the current
top-level `crawl` invocation. -/
structure CrawlerState where
  visitedUrls : List String
  pageCache : List (String × CacheEntry)
  allowedDomains : List String
  strictDomain : Bool
  parsePdfs : Bool
  fetchedLog : List String
deriving DecidableEq

/-- `WebCrawler.__init__(allowed_domains, parse_pdfs)` (crawler.py
18–31): empty visited set and page cache, lenient mode until `crawl`
sets it.  (The PyPDF2-availability check can only raise when the library
is missing; it is modelled as installed.) -/
def initCrawler (allowedDomains : List String) (parsePdfs : Bool) : CrawlerState :=
  { visitedUrls := [], pageCache := [], allowedDomains := allowedDomains,
    strictDomain := false, parsePdfs := parsePdfs, fetchedLog := [] }

/-- Python `dict` lookup on an association list (one entry per key). -/
def dictFind (k : String) : List (String × CacheEntry) → Option CacheEntry
  | [] => none
  | (k', v) :: rest => if k' = k then some v else dictFind k rest

/-- Python `dict` assignment: overwrite in place or append. -/
def dictInsert (k : String) (v : CacheEntry) :
    List (String × CacheEntry) → List (String × CacheEntry)
  | [] => [(k, v)]
  | (k', v') :: rest =>
    if k' = k then (k, v) :: rest else (k', v') :: dictInsert k v rest

/-- `str.startswith`. -/
def startsWithS (s p : String) : Bool := p.data.isPrefixOf s.data

/-- The `excluded_domains` block-list (crawler.py 547–553). -/
def excludedDomains : List String :=
  ["facebook.com", "twitter.com", "instagram.com", "linkedin.com",
   "youtube.com", "tiktok.com", "snapchat.com", "pinterest.com",
   "reddit.com", "tumblr.com", "flickr.com", "vimeo.com",
   "google.com", "bing.com", "yahoo.com", "amazon.com",
   "apple.com", "microsoft.com", "adobe.com", "paypal.com"]

/-- The `ignored_extensions` list before the conditional `.pdf` append
(crawler.py 564–568). -/
def ignoredExtensionsBase : List String :=
  [".jpg", ".jpeg", ".png", ".gif", ".doc",
   ".docx", ".ppt", ".pptx", ".zip", ".tar", ".gz",
   ".mp4", ".avi", ".mov", ".mp3", ".wav", ".exe"]

/-- The `ignored_paths` list (crawler.py 578–581). -/
def ignoredPathsList : List String :=
  ["/api/", "/admin/", "/login/", "/logout/", "/register/",
   "/wp-admin/", "/wp-content/", "/node_modules/", "/assets/"]

/-- `WebCrawler._is_internal_domain` (crawler.py 590–600): exact
membership in strict mode, equality-or-subdomain suffix match in lenient
mode. -/
def isInternalDomain (st : CrawlerState) (domain : String) : Bool :=
  if st.strictDomain then st.allowedDomains.contains domain
  else st.allowedDomains.any fun a => domain = a || endsWithS domain ("." ++ a)

/-- `WebCrawler._should_crawl(url, current_url)` (crawler.py 512–588):
scheme filter, domain filtering with the one-hop external allowance,
block-list, extension filters (PDF gated on `parse_pdfs`), and
non-content path prefixes.  The `try`/`except` wrapper only catches
parsing exceptions, which the modelled `urlparse` never raises. -/
def shouldCrawl (st : CrawlerState) (url : String) (currentUrl : Option String) : Bool :=
  let parsed := urlparseS url
  let domain := lowerS parsed.netloc
  if ¬(parsed.scheme = "http" ∨ parsed.scheme = "https") then false
  else
    let domainOk :=
      if st.allowedDomains.isEmpty then true
      else if isInternalDomain st domain then true
      else
        match currentUrl with
        | some cu => isInternalDomain st (lowerS (urlparseS cu).netloc)
        | none => false
    if ¬domainOk then false
    else if excludedDomains.any (fun ex => domain = ex || endsWithS domain ("." ++ ex)) then
      false
    else if endsWithS (lowerS parsed.path) ".pdf" then st.parsePdfs
    else
      let exts :=
        if st.parsePdfs then ignoredExtensionsBase
        else ignoredExtensionsBase ++ [".pdf"]
      if exts.any (fun e => endsWithS (lowerS parsed.path) e) then false
      else if ignoredPathsList.any (fun p => hasSubS p (lowerS parsed.path)) then false
      else true

/-- `WebCrawler._is_pdf_url` (crawler.py 56–59). -/
def isPdfUrl (url : String) : Bool := endsWithS (lowerS (urlparseS url).path) ".pdf"

/-- Remove every occurrence of `pat` (left to right, non-overlapping),
with a fuel bound making the recursion structural. -/
def removePatAux (pat : List Char) : Nat → List Char → List Char
  | 0, l => l
  | _ + 1, [] => []
  | fuel + 1, c :: rest =>
    if pat.isPrefixOf (c :: rest) then removePatAux pat fuel ((c :: rest).drop pat.length)
    else c :: removePatAux pat fuel rest

/-- `url.split('/')[-1].replace('.pdf', '') or 'PDF Document'` (crawler.py
line 484): the PDF title derived from the filename. -/
def pdfTitle (url : String) : String :=
  let lastSeg : List Char := (splitOnCharL '/' url.data).getLastD []
  let t : List Char := removePatAux ".pdf".data lastSeg.length lastSeg
  if t.isEmpty then "PDF Document" else ⟨t⟩

example : pdfTitle "http://a.com/docs/report.pdf" = "report" := by decide

example : pdfTitle "http://a.com/.pdf" = "PDF Document" := by decide

/-- `WebCrawler._process_pdf(url, current_depth, results)` (crawler.py
462–510).  The whole body runs inside `try`.  After a successful
download and non-empty extraction, lines 481–487 compute the cleaned
text and the filename title, and then the `page_data` dict construction
at lines 490–498 evaluates `path.copy()` — but `path` is not bound in
`_process_pdf`: it is not a parameter, not a local, and not a module
name, so Python raises `NameError`, the handler at line 509 catches it,
and the method returns having appended no record and written no cache
entry.  Consequently every branch returns `results` and the cache
unchanged; only the fetch log records the download attempt. -/
def processPdf (web : String → Option FetchOk) (pdfExtract : String → String)
    (url : String) (_depth : Nat) (st : CrawlerState) (results : List PageRecord) :
    CrawlerState × List PageRecord :=
  let st := { st with fetchedLog := st.fetchedLog ++ [url] }
  match web url with
  | none => (st, results)
  | some resp =>
    if resp.statusCode ≠ 200 then (st, results)
    else
      let pdfText := pdfExtract resp.content
      if pdfText = "" then (st, results)
      else
        let _ := pdfTitle url
        (st, results)

/-- Re-stamp a cached page with the depth and navigation path of the
current traversal context (crawler.py 396–398). -/
def restamp (e : CacheEntry) (depth : Nat) (path : List PathNode) : PageRecord :=
  { url := e.url, title := e.title, html := e.html, text := e.text,
    depth := depth, contentType := e.contentType, navigationPath := path }

/-- `WebCrawler._crawl_links_from_soup` (crawler.py 602–643): refuse to
expand links when the current page's domain is external; otherwise walk
the soup's anchors in order and, for each link passing
`_should_crawl(link, url)`, run the supplied recursive step (the
`is_next_internal` computation in the source only feeds log output). -/
def crawlLinksFromSoup
    (crawlNext : String → CrawlerState → List PageRecord → CrawlerState × List PageRecord)
    (st : CrawlerState) (links : List String) (url : String)
    (results : List PageRecord) : CrawlerState × List PageRecord :=
  if ¬isInternalDomain st (lowerS (urlparseS url).netloc) then (st, results)
  else
    links.foldl
      (fun acc link =>
        if shouldCrawl acc.1 link (some url) then crawlNext link acc.1 acc.2
        else acc)
      (st, results)

/-- `WebCrawler._crawl_recursive(url, current_depth, max_depth, results,
path, parent_url)` (crawler.py 384–460), with an explicit fuel argument
standing in for Python's call stack (the Python recursion terminates
because the visited set grows; every theorem below holds for every
fuel).  The branches, in source order: the depth / visited /
`_should_crawl` gate; the page-cache hit (re-stamp, emit, mark visited,
and — below `max_depth` and for non-PDF URLs — expand the cached
markup's links); marking visited and fetching; the PDF sub-path; HTML
parsing, caching keyed by `_get_page_cache_key(url)`, emitting, and link
expansion below `max_depth`.  A `none` fetch result models the request
exception swallowed at lines 459–460. -/
def crawlRec (web : String → Option FetchOk) (parse : String → Soup)
    (pdfExtract : String → String) (maxDepth : Nat) :
    Nat → String → Nat → CrawlerState → List PageRecord → List PathNode →
    Option String → CrawlerState × List PageRecord
  | 0, _, _, st, results, _, _ => (st, results)
  | fuel + 1, url, depth, st, results, path, parentUrl =>
    if depth > maxDepth ∨ st.visitedUrls.contains url ∨
        ¬shouldCrawl st url parentUrl then
      (st, results)
    else
      let cacheKey := getPageCacheKey url
      match dictFind cacheKey st.pageCache with
      | some cached =>
        let results := results ++ [restamp cached depth path]
        let st := { st with visitedUrls := url :: st.visitedUrls }
        if depth < maxDepth ∧ ¬isPdfUrl url then
          let soup := parse cached.html
          crawlLinksFromSoup
            (fun link st' results' =>
              crawlRec web parse pdfExtract maxDepth fuel link (depth + 1)
                st' results' (path ++ [{ url := url, title := cached.title }])
                (some url))
            st soup.links url results
        else (st, results)
      | none =>
        let st := { st with visitedUrls := url :: st.visitedUrls }
        if isPdfUrl url then processPdf web pdfExtract url depth st results
        else
          let st := { st with fetchedLog := st.fetchedLog ++ [url] }
          match web url with
          | none => (st, results)
          | some resp =>
            if resp.statusCode ≠ 200 then (st, results)
            else
              let soup := parse resp.text
              let pageTitle := soup.title.getD "No Title"
              let pageData : PageRecord :=
                { url := url, title := pageTitle, html := resp.text,
                  text := soup.mainText, depth := depth, contentType := "html",
                  navigationPath := path }
              let entry : CacheEntry :=
                { url := url, title := pageTitle, html := resp.text,
                  text := soup.mainText, contentType := "html" }
              let st := { st with pageCache := dictInsert cacheKey entry st.pageCache }
              let results := results ++ [pageData]
              if depth < maxDepth then
                crawlLinksFromSoup
                  (fun link st' results' =>
                    crawlRec web parse pdfExtract maxDepth fuel link (depth + 1)
                      st' results' (path ++ [{ url := url, title := pageTitle }])
                      (some url))
                  st soup.links url results
              else (st, results)

/-- `WebCrawler.crawl(start_url, max_depth, strict_domain)` (crawler.py
339–382): set the strict flag, clear the visited set, derive the
allowed-domains set afresh from the start URL's lower-cased host (the
exact host in strict mode; host, www-variant, and the `unitedspinal.org`
special case in lenient mode — set semantics, so duplicates are
irrelevant to the membership tests that consume it), then recurse from
depth 0 with an empty path and no parent.  The per-invocation fetch log
starts empty (instrumentation). -/
def crawl (web : String → Option FetchOk) (parse : String → Soup)
    (pdfExtract : String → String) (st : CrawlerState) (startUrl : String)
    (maxDepth : Nat) (strictDomain : Bool) (fuel : Nat) :
    CrawlerState × List PageRecord :=
  let st := { st with strictDomain := strictDomain
                      visitedUrls := []
                      fetchedLog := [] }
  let baseDomain := lowerS (urlparseS startUrl).netloc
  let st :=
    if strictDomain then { st with allowedDomains := [baseDomain] }
    else
      let allowed := [baseDomain]
      let allowed :=
        if startsWithS baseDomain "www." then
          allowed ++ [(⟨baseDomain.data.drop 4⟩ : String)]
        else allowed ++ ["www." ++ baseDomain]
      let allowed :=
        if hasSubS "unitedspinal.org" baseDomain then
          allowed ++ ["unitedspinal.org", "www.unitedspinal.org"]
        else allowed
      { st with allowedDomains := allowed }
  crawlRec web parse pdfExtract maxDepth fuel startUrl 0 st [] [] none

/-! ## The client (`client.py`, class `RufusClient`) and the cache
maintenance operations

In `crawler.py`, the class body of `WebCrawler` is indented by two
spaces (every method from `__init__` at line 18 through
`_crawl_links_from_soup` at line 602).  The two functions
`get_cache_info` (line 645) and `clear_cache` (line 652) are written
with `def` at column 0: they are module-level functions of module
`crawler`, not methods of `WebCrawler`, even though they take `self` and
their docstrings describe them as cache accessors of the crawler.
Python attribute lookup on a `WebCrawler` instance therefore fails for
these names with `AttributeError`.  The lists below record, from the
source text, which names the class body defines and which the module
defines, and attribute access is modelled by membership in the class
list. -/

/-- The method names defined inside the `class WebCrawler:` suite
(crawler.py lines 18–643, all at class indentation). -/
def webCrawlerMethodNames : List String :=
  ["__init__", "_get_page_cache_key", "_extract_pdf_text", "_is_pdf_url",
   "_extract_main_content", "_find_main_content_area",
   "_find_largest_content_block", "_clean_extracted_text",
   "_clean_pdf_text", "_remove_repeated_content", "crawl",
   "_crawl_recursive", "_process_pdf", "_should_crawl",
   "_is_internal_domain", "_crawl_links_from_soup"]

/-- The functions defined at module level in `crawler.py` (lines 645 and
652, `def` at column 0). -/
def crawlerModuleFunctionNames : List String := ["get_cache_info", "clear_cache"]

/-- The Python exceptions the modelled client operations can raise. -/
inductive PyError
  | attributeError
deriving DecidableEq, Repr

/-- The structured result `scrape` assembles and caches (client.py
109–115). -/
structure ScrapeResult where
  documents : List XRecord
  documentCount : Nat
  sources : List String
deriving DecidableEq

/-- The state of a `RufusClient` instance (client.py 10–22): its two
memoization tiers and its crawler. -/
structure RufusClientState where
  parsePdfs : Bool
  maxDepth : Nat
  strictDomain : Bool
  crawler : CrawlerState
  crawlCache : List (String × List PageRecord)
  extractionCache : List (String × ScrapeResult)

/-- The dictionary `RufusClient.get_cache_info` builds (client.py
127–136). -/
structure CacheInfo where
  crawlCacheEntries : Nat
  extractionCacheEntries : Nat
  totalCachedPages : Nat
  crawlerCachedPages : Nat
  crawlerVisitedUrls : Nat
deriving DecidableEq, Repr

/-- `RufusClient.get_cache_info` (client.py 127–136): its first statement
is `crawler_info = self.crawler.get_cache_info()`, an attribute lookup
on the `WebCrawler` instance.  `get_cache_info` is not among the class's
method names (it sits at module level in crawler.py), so the lookup
raises `AttributeError` before any dictionary is built. -/
def clientGetCacheInfo (c : RufusClientState) : Except PyError CacheInfo :=
  if webCrawlerMethodNames.contains "get_cache_info" then
    Except.ok
      { crawlCacheEntries := c.crawlCache.length
        extractionCacheEntries := c.extractionCache.length
        totalCachedPages := (c.crawlCache.map (fun kv => kv.2.length)).sum
        crawlerCachedPages := c.crawler.pageCache.length
        crawlerVisitedUrls := c.crawler.visitedUrls.length }
  else Except.error PyError.attributeError

/-- `RufusClient.clear_cache` (client.py 138–143): clears the crawl cache
and the extraction cache, then calls `self.crawler.clear_cache()` — an
attribute lookup that raises `AttributeError` (the name is module-level
in crawler.py), so the crawler's page cache is left untouched and the
exception propagates after the two client tiers were already emptied. -/
def clientClearCache (c : RufusClientState) : RufusClientState × Except PyError Unit :=
  let c := { c with crawlCache := [], extractionCache := [] }
  if webCrawlerMethodNames.contains "clear_cache" then
    ({ c with crawler := { c.crawler with pageCache := [] } }, Except.ok ())
  else (c, Except.error PyError.attributeError)

/-! ## Concrete sites for the counterexample evaluations

Each oracle below is a small fixed web used to run the embedded crawler
on concrete inputs. -/

/-- A site at host `shop.example.com` whose start page links to
`http://example.com/about` on the parent (different) host. -/
def webShop : String → Option FetchOk := fun url =>
  if url = "http://shop.example.com" then
    some { statusCode := 200, text := "shopHome", content := "" }
  else if url = "http://example.com/about" then
    some { statusCode := 200, text := "aboutPage", content := "" }
  else none

/-- Parse oracle for `webShop`. -/
def parseShop : String → Soup := fun html =>
  if html = "shopHome" then
    { title := some "Shop", links := ["http://example.com/about"],
      mainText := "shop home" }
  else if html = "aboutPage" then
    { title := some "About", links := [], mainText := "about us" }
  else { title := none, links := [], mainText := "" }

/-- A site at `a.com` whose start page links to the same target twice,
once with and once without a fragment. -/
def webFrag : String → Option FetchOk := fun url =>
  if url = "http://a.com/" then
    some { statusCode := 200, text := "fragHome", content := "" }
  else if url = "http://a.com/p" ∨ url = "http://a.com/p#x" then
    some { statusCode := 200, text := "pageP", content := "" }
  else none

/-- Parse oracle for `webFrag`. -/
def parseFrag : String → Soup := fun html =>
  if html = "fragHome" then
    { title := some "Home", links := ["http://a.com/p", "http://a.com/p#x"],
      mainText := "home" }
  else { title := some "P", links := [], mainText := "p" }

/-- A PDF-extraction oracle that never succeeds; the concrete sites above
contain no PDFs. -/
def pdfExtractNone : String → String := fun _ => ""

/-! ## Chunker lemmas: sentence splitting and greedy grouping -/

theorem splitSentAux_ne_nil (l : List Char) : ∀ acc, splitSentAux l acc ≠ [] := by
  induction l with
  | nil => intro acc; simp [splitSentAux]
  | cons c rest ih =>
    intro acc
    rw [splitSentAux]
    split
    · simp
    · exact ih _

theorem joinSpaceL_cons_cons (x y : List Char) (ys : List (List Char)) :
    joinSpaceL (x :: y :: ys) = x ++ ' ' :: joinSpaceL (y :: ys) := rfl

/-- Joining the sentence split with single spaces restores the input:
each split point consumes exactly the one space the join re-inserts. -/
theorem joinSpace_splitSentAux (l : List Char) :
    ∀ acc, joinSpaceL (splitSentAux l acc) = acc.reverse ++ l := by
  induction l with
  | nil => intro acc; simp [splitSentAux, joinSpaceL]
  | cons c rest ih =>
    intro acc
    rw [splitSentAux]
    split
    next h =>
      obtain ⟨y, ys, heq⟩ : ∃ y ys, splitSentAux rest [] = y :: ys := by
        cases hh : splitSentAux rest [] with
        | nil => exact absurd hh (splitSentAux_ne_nil rest [])
        | cons y ys => exact ⟨y, ys, rfl⟩
      have hc : c = ' ' := by
        have h' := (Bool.and_eq_true _ _).mp h
        exact of_decide_eq_true h'.1
      rw [heq, joinSpaceL_cons_cons, ← heq, ih []]
      simp [hc]
    next =>
      rw [ih (c :: acc)]
      simp

/-- The sentence groups flatten back to the full sentence list: every
sentence lands in exactly one chunk and the final partial chunk is
flushed. -/
theorem chunkGroupsAux_flatten (n : Nat) (sents : List (List Char)) :
    ∀ cur curLen, (chunkGroupsAux n sents cur curLen).flatten = cur ++ sents := by
  induction sents with
  | nil =>
    intro cur curLen
    rw [chunkGroupsAux]
    split
    next h => simp_all [List.isEmpty_iff]
    next => simp
  | cons s rest ih =>
    intro cur curLen
    rw [chunkGroupsAux]
    split
    · split
      next h =>
        rw [ih]
        simp_all [List.isEmpty_iff]
      next => simp [ih]
    · rw [ih]
      simp

/-- Every emitted sentence group is non-empty. -/
theorem chunkGroupsAux_ne_nil (n : Nat) (sents : List (List Char)) :
    ∀ cur curLen g, g ∈ chunkGroupsAux n sents cur curLen → g ≠ [] := by
  induction sents with
  | nil =>
    intro cur curLen g hg
    rw [chunkGroupsAux] at hg
    split at hg
    · simp at hg
    next h =>
      simp at hg
      subst hg
      intro hnil
      simp [hnil] at h
  | cons s rest ih =>
    intro cur curLen g hg
    rw [chunkGroupsAux] at hg
    split at hg
    · split at hg
      · exact ih _ _ _ hg
      next h =>
        rcases List.mem_cons.mp hg with rfl | hg'
        · intro hnil
          simp [hnil] at h
        · exact ih _ _ _ hg'
    · exact ih _ _ _ hg

theorem joinSpaceL_append (g m : List (List Char)) (hg : g ≠ []) (hm : m ≠ []) :
    joinSpaceL (g ++ m) = joinSpaceL g ++ ' ' :: joinSpaceL m := by
  induction g with
  | nil => exact absurd rfl hg
  | cons x g' ih =>
    cases g' with
    | nil =>
      cases m with
      | nil => exact absurd rfl hm
      | cons y ys => simp [joinSpaceL_cons_cons, joinSpaceL]
    | cons y g'' =>
      have h' := ih (by simp)
      rw [List.cons_append, List.cons_append, joinSpaceL_cons_cons,
        ← List.cons_append, h', joinSpaceL_cons_cons]
      simp

/-- Joining the per-group joins equals joining the flattened sentence
list, provided every group is non-empty. -/
theorem joinSpaceL_map_join (gs : List (List (List Char)))
    (h : ∀ g ∈ gs, g ≠ []) :
    joinSpaceL (gs.map joinSpaceL) = joinSpaceL gs.flatten := by
  induction gs with
  | nil => rfl
  | cons g gs' ih =>
    cases gs' with
    | nil => simp [joinSpaceL]
    | cons g' gs'' =>
      have hg : g ≠ [] := h g (by simp)
      have hflat : (g' :: gs'').flatten ≠ [] := by
        have hg' : g' ≠ [] := h g' (by simp)
        intro h0
        rw [List.flatten_cons] at h0
        exact hg' (List.append_eq_nil.mp h0).1
      have hrec := ih (fun g hgm => h g (List.mem_cons_of_mem _ hgm))
      rw [List.map_cons, List.map_cons, joinSpaceL_cons_cons, ← List.map_cons,
        hrec]
      rw [show (g :: g' :: gs'').flatten = g ++ (g' :: gs'').flatten from rfl]
      rw [joinSpaceL_append g ((g' :: gs'').flatten) hg hflat]

/-- Character-list core of the round trip: joining all chunks of the
cleaned text with single spaces yields the cleaned text back. -/
theorem chunksJoinL (n : Nat) (l : List Char) :
    joinSpaceL ((chunkGroupsAux n (splitSentencesL l) [] 0).map joinSpaceL) = l := by
  rw [joinSpaceL_map_join _ (fun g hg => chunkGroupsAux_ne_nil _ _ _ _ g hg),
    chunkGroupsAux_flatten]
  simpa [splitSentencesL] using joinSpace_splitSentAux l []

/-- Invariant of the greedy accumulation: whenever a group holds at least
two sentences, its last addition was made under the size guard, so the
group's total sentence length is bounded by the chunk size. -/
theorem chunkGroupsAux_sum_le (n : Nat) (sents : List (List Char)) :
    ∀ cur curLen, curLen = (cur.map List.length).sum →
      (2 ≤ cur.length → curLen ≤ n) →
      ∀ g ∈ chunkGroupsAux n sents cur curLen, 2 ≤ g.length →
        (g.map List.length).sum ≤ n := by
  induction sents with
  | nil =>
    intro cur curLen hsum hbound g hg h2
    rw [chunkGroupsAux] at hg
    split at hg
    · simp at hg
    · simp at hg
      subst hg
      rw [← hsum]
      exact hbound h2
  | cons s rest ih =>
    intro cur curLen hsum hbound g hg h2
    rw [chunkGroupsAux] at hg
    split at hg
    next hgt =>
      split at hg
      · exact ih [s] s.length (by simp) (by intro h; simp at h) g hg h2
      · rcases List.mem_cons.mp hg with rfl | hg'
        · rw [← hsum]
          exact hbound h2
        · exact ih [s] s.length (by simp) (by intro h; simp at h) g hg' h2
    next hle =>
      refine ih (cur ++ [s]) (curLen + s.length) (by simp [hsum]) ?_ g hg h2
      intro _
      omega

theorem joinSpaceL_length (g : List (List Char)) :
    (joinSpaceL g).length = (g.map List.length).sum + (g.length - 1) := by
  induction g with
  | nil => rfl
  | cons x g' ih =>
    cases g' with
    | nil => simp [joinSpaceL]
    | cons y g'' =>
      rw [joinSpaceL_cons_cons]
      simp only [List.length_append, List.length_cons, ih, List.map_cons,
        List.sum_cons]
      omega

theorem strLen (l : List Char) : (⟨l⟩ : String).length = l.length := rfl

/-! ## Sorting lemmas: the stable descending sort of `extract` -/

theorem mem_insertByScoreDesc (x y : XRecord) (l : List XRecord) :
    y ∈ insertByScoreDesc x l ↔ y = x ∨ y ∈ l := by
  induction l with
  | nil => simp [insertByScoreDesc]
  | cons a as ih =>
    rw [insertByScoreDesc]
    split
    · simp only [List.mem_cons, ih]
      tauto
    · simp only [List.mem_cons]

theorem pairwise_insertByScoreDesc (x : XRecord) (l : List XRecord)
    (h : l.Pairwise (fun p r => r.relevanceScore ≤ p.relevanceScore)) :
    (insertByScoreDesc x l).Pairwise
      (fun p r => r.relevanceScore ≤ p.relevanceScore) := by
  induction l with
  | nil => simp [insertByScoreDesc]
  | cons a as ih =>
    rw [List.pairwise_cons] at h
    rw [insertByScoreDesc]
    split
    next hle =>
      rw [List.pairwise_cons]
      refine ⟨?_, ih h.2⟩
      intro y hy
      rcases (mem_insertByScoreDesc x y as).mp hy with rfl | hy'
      · exact hle
      · exact h.1 y hy'
    next hgt =>
      push_neg at hgt
      rw [List.pairwise_cons]
      refine ⟨?_, List.pairwise_cons.mpr h⟩
      intro y hy
      rcases List.mem_cons.mp hy with rfl | hy'
      · exact le_of_lt hgt
      · exact le_trans (h.1 y hy') (le_of_lt hgt)

theorem filter_score_lt_nil (q : ℚ) (a : XRecord) (as : List XRecord)
    (h : (a :: as).Pairwise (fun p r => r.relevanceScore ≤ p.relevanceScore))
    (hlt : a.relevanceScore < q) :
    (a :: as).filter (fun r => decide (r.relevanceScore = q)) = [] := by
  rw [List.filter_eq_nil_iff]
  intro r hr
  rw [List.pairwise_cons] at h
  simp only [decide_eq_true_eq]
  rcases List.mem_cons.mp hr with rfl | hr'
  · exact ne_of_lt hlt
  · exact ne_of_lt (lt_of_le_of_lt (h.1 r hr') hlt)

/-- Stability of one insertion: a newly inserted record appears after all
already-present records of its own score. -/
theorem filter_insertByScoreDesc (x : XRecord) (q : ℚ) (l : List XRecord)
    (h : l.Pairwise (fun p r => r.relevanceScore ≤ p.relevanceScore)) :
    (insertByScoreDesc x l).filter (fun r => decide (r.relevanceScore = q)) =
      if x.relevanceScore = q then
        l.filter (fun r => decide (r.relevanceScore = q)) ++ [x]
      else l.filter (fun r => decide (r.relevanceScore = q)) := by
  induction l with
  | nil =>
    by_cases hxq : x.relevanceScore = q <;> simp [insertByScoreDesc, hxq]
  | cons a as ih =>
    have htail : as.Pairwise (fun p r => r.relevanceScore ≤ p.relevanceScore) :=
      (List.pairwise_cons.mp h).2
    rw [insertByScoreDesc]
    split
    next hle =>
      by_cases hxq : x.relevanceScore = q <;>
        by_cases haq : a.relevanceScore = q <;>
          simp [List.filter_cons, haq, hxq, ih htail]
    next hgt =>
      push_neg at hgt
      by_cases hxq : x.relevanceScore = q
      · have hnil := filter_score_lt_nil q a as h (hxq ▸ hgt)
        simp [List.filter_cons, hxq, hnil]
      · simp [List.filter_cons, hxq]

theorem pairwise_foldl_insert (l : List XRecord) :
    ∀ acc, acc.Pairwise (fun p r => r.relevanceScore ≤ p.relevanceScore) →
      (l.foldl (fun acc x => insertByScoreDesc x acc) acc).Pairwise
        (fun p r => r.relevanceScore ≤ p.relevanceScore) := by
  induction l with
  | nil => intro acc h; simpa using h
  | cons x rest ih =>
    intro acc h
    rw [List.foldl_cons]
    exact ih _ (pairwise_insertByScoreDesc x acc h)

theorem mem_foldl_insert (l : List XRecord) :
    ∀ acc y, y ∈ l.foldl (fun acc x => insertByScoreDesc x acc) acc ↔
      y ∈ acc ∨ y ∈ l := by
  induction l with
  | nil => intro acc y; simp
  | cons x rest ih =>
    intro acc y
    rw [List.foldl_cons, ih, mem_insertByScoreDesc]
    simp only [List.mem_cons]
    tauto

/-- Stability of the whole fold: filtering the sorted output at any fixed
score reproduces the input's records of that score in input order. -/
theorem filter_foldl_insert (q : ℚ) (l : List XRecord) :
    ∀ acc, acc.Pairwise (fun p r => r.relevanceScore ≤ p.relevanceScore) →
      (l.foldl (fun acc x => insertByScoreDesc x acc) acc).filter
          (fun r => decide (r.relevanceScore = q)) =
        acc.filter (fun r => decide (r.relevanceScore = q)) ++
          l.filter (fun r => decide (r.relevanceScore = q)) := by
  induction l with
  | nil => intro acc _; simp
  | cons x rest ih =>
    intro acc hacc
    rw [List.foldl_cons, ih _ (pairwise_insertByScoreDesc x acc hacc),
      filter_insertByScoreDesc x q acc hacc]
    by_cases hxq : x.relevanceScore = q <;> simp [List.filter_cons, hxq]

/-- Every record collected by the page loop beat the threshold. -/
theorem mem_extractCollected_gt (sim : String → String → ℚ) (thr : ℚ)
    (chunkSize : Nat) (pages : List XPage) (instr : String) (r : XRecord)
    (h : r ∈ extractCollected sim thr chunkSize pages instr) :
    thr < r.relevanceScore := by
  simp only [extractCollected, List.mem_flatten, List.mem_map] at h
  obtain ⟨_, ⟨page, _, rfl⟩, hr⟩ := h
  simp only [pageRecords] at hr
  split at hr
  · simp at hr
  · simp only [List.mem_filterMap] at hr
    obtain ⟨ic, _, hif⟩ := hr
    split at hif
    next hgt =>
      obtain rfl := Option.some.inj hif
      exact hgt
    next => exact absurd hif (by simp)

/-! ## Crawler lemmas -/

/-- `_process_pdf` changes neither the result list, nor the page cache,
nor the visited set: after a successful download and a non-empty
extraction, the `page_data` construction raises `NameError` on the
unbound name `path` and the `except` handler swallows it, so the record
append and the cache write at crawler.py 490–507 are never reached; the
earlier branches (download failure, bad status, empty extraction) return
before them.  Only the fetch log can grow, by exactly this URL. -/
theorem processPdf_keeps (web : String → Option FetchOk)
    (pdfE : String → String) (url : String) (depth : Nat)
    (st : CrawlerState) (results : List PageRecord) :
    (processPdf web pdfE url depth st results).2 = results ∧
    (processPdf web pdfE url depth st results).1.pageCache = st.pageCache ∧
    (processPdf web pdfE url depth st results).1.visitedUrls = st.visitedUrls ∧
    (processPdf web pdfE url depth st results).1.fetchedLog =
      st.fetchedLog ++ [url] := by
  rw [processPdf]
  cases hw : web url with
  | none => exact ⟨rfl, rfl, rfl, rfl⟩
  | some resp =>
    dsimp only
    split
    · exact ⟨rfl, rfl, rfl, rfl⟩
    · split
      · exact ⟨rfl, rfl, rfl, rfl⟩
      · exact ⟨rfl, rfl, rfl, rfl⟩

/-- The invariant carried through the traversal for the no-duplicate-fetch
property: the fetch log has no repeats and every fetched URL has been
marked visited. -/
def FetchInv (st : CrawlerState) : Prop :=
  st.fetchedLog.Nodup ∧ ∀ u ∈ st.fetchedLog, u ∈ st.visitedUrls

theorem fetchInv_log_extend (st : CrawlerState) (url : String)
    (h : FetchInv st) (hv : url ∈ st.visitedUrls) (hf : url ∉ st.fetchedLog) :
    FetchInv { st with fetchedLog := st.fetchedLog ++ [url] } := by
  constructor
  · simp [List.nodup_append, h.1, hf]
  · intro u hu
    rcases List.mem_append.mp hu with hu | hu
    · exact h.2 u hu
    · rw [List.mem_singleton] at hu
      subst hu
      exact hv

theorem fetchInv_visit (st : CrawlerState) (url : String) (h : FetchInv st) :
    FetchInv { st with visitedUrls := url :: st.visitedUrls } := by
  exact ⟨h.1, fun u hu => List.mem_cons_of_mem _ (h.2 u hu)⟩

/-- The link loop of `_crawl_links_from_soup` preserves any state
property its recursive step preserves. -/
theorem crawlLinksFromSoup_state
    (step : String → CrawlerState → List PageRecord → CrawlerState × List PageRecord)
    (P : CrawlerState → Prop)
    (hstep : ∀ link st results, P st → P (step link st results).1)
    (links : List String) (url : String) :
    ∀ st results, P st → P (crawlLinksFromSoup step st links url results).1 := by
  intro st results h
  rw [crawlLinksFromSoup]
  split
  · exact h
  · clear * - hstep h
    induction links generalizing st results with
    | nil => simpa using h
    | cons l rest ih =>
      rw [List.foldl_cons]
      dsimp only
      split
      · exact ih _ _ (hstep _ _ _ h)
      · exact ih _ _ h

/-- The link loop only appends records its recursive step can append:
any record of the output was already present or satisfies the
step-established property. -/
theorem crawlLinksFromSoup_results
    (step : String → CrawlerState → List PageRecord → CrawlerState × List PageRecord)
    (Q : PageRecord → Prop)
    (hstep : ∀ link st results r, r ∈ (step link st results).2 → r ∈ results ∨ Q r)
    (links : List String) (url : String) :
    ∀ st results r, r ∈ (crawlLinksFromSoup step st links url results).2 →
      r ∈ results ∨ Q r := by
  intro st results r h
  rw [crawlLinksFromSoup] at h
  split at h
  · exact Or.inl h
  · clear * - hstep h
    induction links generalizing st results with
    | nil => exact Or.inl (by simpa using h)
    | cons l rest ih =>
      rw [List.foldl_cons] at h
      dsimp only at h
      split at h
      · rcases ih _ _ h with hmem | hq
        · rcases hstep _ _ _ _ hmem with hmem' | hq'
          · exact Or.inl hmem'
          · exact Or.inr hq'
        · exact Or.inr hq
      · exact ih _ _ h

/-- `_crawl_recursive` preserves the fetch invariant: every `session.get`
happens on a URL that just failed the visited check and was marked
visited first, so the log stays duplicate-free. -/
theorem crawlRec_fetchInv (web : String → Option FetchOk) (parse : String → Soup)
    (pdfE : String → String) (maxD : Nat) :
    ∀ fuel url depth st results path parent, FetchInv st →
      FetchInv (crawlRec web parse pdfE maxD fuel url depth st results path parent).1 := by
  intro fuel
  induction fuel with
  | zero =>
    intro url depth st results path parent h
    simpa [crawlRec] using h
  | succ f ih =>
    intro url depth st results path parent h
    rw [crawlRec]
    split
    · exact h
    next hguard =>
      push_neg at hguard
      have hvisited : url ∉ st.visitedUrls := by
        have hc := hguard.2.1
        simpa using hc
      dsimp only
      split
      next cached =>
        -- cache hit: no fetch, mark visited, then maybe expand links
        split
        · refine crawlLinksFromSoup_state _ FetchInv ?_ _ _ _ _
            (fetchInv_visit st url h)
          intro link st' results' h'
          exact ih link (depth + 1) st' results' _ _ h'
        · exact fetchInv_visit st url h
      next =>
        -- cache miss: mark visited, then PDF or HTML fetch
        have h2 : FetchInv { st with visitedUrls := url :: st.visitedUrls } :=
          fetchInv_visit st url h
        have hlog : url ∉ st.fetchedLog := fun hmem => hvisited (h.2 url hmem)
        split
        · -- PDF path
          have hk := processPdf_keeps web pdfE url depth
            { st with visitedUrls := url :: st.visitedUrls } results
          constructor
          · rw [hk.2.2.2]
            exact (fetchInv_log_extend _ url h2 (by simp) hlog).1
          · intro u hu
            rw [hk.2.2.2] at hu
            rw [hk.2.2.1]
            exact (fetchInv_log_extend _ url h2 (by simp) hlog).2 u hu
        · -- HTML path: log the fetch first
          have h3 : FetchInv { st with visitedUrls := url :: st.visitedUrls
                                       fetchedLog := st.fetchedLog ++ [url] } := by
            have := fetchInv_log_extend { st with visitedUrls := url :: st.visitedUrls }
              url h2 (by simp) hlog
            simpa using this
          split
          · exact h3
          · split
            · exact h3
            · split
              · refine crawlLinksFromSoup_state _ FetchInv ?_ _ _ _ _ ?_
                · intro link st' results' h'
                  exact ih link (depth + 1) st' results' _ _ h'
                · exact ⟨h3.1, h3.2⟩
              · exact ⟨h3.1, h3.2⟩

/-- `_crawl_recursive` only appends records stamped with a depth that
passed the `current_depth > max_depth` gate: every record of the output
was already in `results` or has depth at most `max_depth`. -/
theorem crawlRec_depth (web : String → Option FetchOk) (parse : String → Soup)
    (pdfE : String → String) (maxD : Nat) :
    ∀ fuel url depth st results path parent r,
      r ∈ (crawlRec web parse pdfE maxD fuel url depth st results path parent).2 →
      r ∈ results ∨ r.depth ≤ maxD := by
  intro fuel
  induction fuel with
  | zero =>
    intro url depth st results path parent r hr
    simp only [crawlRec] at hr
    exact Or.inl hr
  | succ f ih =>
    intro url depth st results path parent r hr
    rw [crawlRec] at hr
    split at hr
    · exact Or.inl hr
    next hguard =>
      push_neg at hguard
      have hdep : depth ≤ maxD := by
        have := hguard.1
        omega
      dsimp only at hr
      split at hr
      next cached =>
        split at hr
        · rcases crawlLinksFromSoup_results _ (fun r => r.depth ≤ maxD)
            (fun link st' results' r' h' =>
              ih link (depth + 1) st' results' _ _ r' h')
            _ _ _ _ r hr with hmem | hq
          · rcases List.mem_append.mp hmem with h1 | h1
            · exact Or.inl h1
            · right
              rw [List.mem_singleton] at h1
              subst h1
              exact hdep
          · exact Or.inr hq
        · rcases List.mem_append.mp hr with h1 | h1
          · exact Or.inl h1
          · right
            rw [List.mem_singleton] at h1
            subst h1
            exact hdep
      next =>
        split at hr
        · rw [(processPdf_keeps _ _ _ _ _ _).1] at hr
          exact Or.inl hr
        · split at hr
          next => exact Or.inl hr
          next resp =>
            split at hr
            · exact Or.inl hr
            · split at hr
              · rcases crawlLinksFromSoup_results _ (fun r => r.depth ≤ maxD)
                  (fun link st' results' r' h' =>
                    ih link (depth + 1) st' results' _ _ r' h')
                  _ _ _ _ r hr with hmem | hq
                · rcases List.mem_append.mp hmem with h1 | h1
                  · exact Or.inl h1
                  · right
                    rw [List.mem_singleton] at h1
                    subst h1
                    exact hdep
                · exact Or.inr hq
              · rcases List.mem_append.mp hr with h1 | h1
                · exact Or.inl h1
                · right
                  rw [List.mem_singleton] at h1
                  subst h1
                  exact hdep

theorem fetchInv_of_nil (st : CrawlerState) (h : st.fetchedLog = []) :
    FetchInv st := by
  constructor
  · rw [h]
    exact List.nodup_nil
  · intro u hu
    rw [h] at hu
    simp at hu

/-! ## Remaining fixtures for concrete evaluations -/

/-- A web on which every request raises. -/
def webNone : String → Option FetchOk := fun _ => none

/-- A parse oracle yielding an empty document. -/
def parseNone : String → Soup :=
  fun _ => { title := none, links := [], mainText := "" }

/-- The crawler state `crawl("http://shop.example.com", strict_domain=True)`
builds (strict mode, allowed domains = the exact start host), with the
start page already visited: the context in which `_should_crawl` judges
the external link. -/
def strictShopState : CrawlerState :=
  { visitedUrls := ["http://shop.example.com"], pageCache := [],
    allowedDomains := ["shop.example.com"], strictDomain := true,
    parsePdfs := false, fetchedLog := ["http://shop.example.com"] }

/-- A site holding one PDF that downloads fine and extracts non-empty
text. -/
def webPdf : String → Option FetchOk := fun url =>
  if url = "http://a.com/doc.pdf" then
    some { statusCode := 200, text := "", content := "PDFBYTES" }
  else none

/-- PDF extraction oracle for `webPdf`: succeeds with non-empty text. -/
def pdfExtractDemo : String → String := fun content =>
  if content = "PDFBYTES" then "Extracted text." else ""

/-- A cached page body for the cache-hit evaluation. -/
def cacheWitnessEntry : CacheEntry :=
  { url := "http://a.com/x", title := "X", html := "xh", text := "xt",
    contentType := "html" }

/-- A crawler whose page cache already holds `http://a.com/x` under the
MD5 key of that exact raw URL string. -/
def cacheWitnessState : CrawlerState :=
  { visitedUrls := [],
    pageCache := [(getPageCacheKey "http://a.com/x", cacheWitnessEntry)],
    allowedDomains := ["a.com"], strictDomain := false, parsePdfs := false,
    fetchedLog := [] }

/-- Placeholder record for `List.headD`. -/
def dummyRecord : PageRecord :=
  { url := "", title := "", html := "", text := "", depth := 0,
    contentType := "", navigationPath := [] }

/-- The first PageRecord of the concrete strict crawl of `webShop`. -/
def shopFirstRecord : PageRecord :=
  ((crawl webShop parseShop pdfExtractNone (initCrawler [] false)
    "http://shop.example.com" 1 true 5).2).headD dummyRecord

/-! ## Claim theorems -/

/-- C7: chunk coverage round trip — for every input text and chunk size,
joining the produced chunks with a single space between consecutive
chunks equals the whitespace-normalized input text (no characters
dropped or duplicated), and the sentence groups flatten back to the full
sentence list, i.e. the final partial accumulation is always flushed as
the last chunk. -/
theorem chunks_join_roundtrip (text : String) (n : Nat) :
    pyJoinSpace (splitIntoChunks n text) = cleanTextS text ∧
    (chunkGroups n text).flatten = splitSentencesL (cleanTextL text.data) := by
  constructor
  · have h1 : (splitIntoChunks n text).map String.data =
        (chunkGroupsAux n (splitSentencesL (cleanTextL text.data)) [] 0).map
          joinSpaceL := by
      rw [splitIntoChunks, chunkGroups, List.map_map]
      rfl
    show (⟨joinSpaceL ((splitIntoChunks n text).map String.data)⟩ : String) = _
    rw [h1, chunksJoinL]
    rfl
  · rw [chunkGroups, chunkGroupsAux_flatten]
    rfl

/-- C8 (counterexample): with `chunk_size = 6`, the input `"ab. cd."`
produces the single chunk `"ab. cd."` of length 7 — the greedy loop
counts only sentence characters, not the joining space, so the emitted
chunk exceeds the configured bound. -/
theorem chunk_length_exceeds_cex :
    "ab. cd." ∈ splitIntoChunks 6 "ab. cd." ∧
      6 < ("ab. cd." : String).length :=
  ⟨by decide, by decide⟩

/-- C8 (amended): a chunk built from at least two sentences has total
sentence-character count at most `chunk_size` (the loop's
`current_length` bound), hence chunk-string length at most `chunk_size`
plus one joining space per additional sentence; a single-sentence chunk
may be arbitrarily long, since sentences are never split. -/
theorem chunk_multi_sentence_bound (text : String) (n : Nat)
    (g : List (List Char)) (hg : g ∈ chunkGroups n text) (h2 : 2 ≤ g.length) :
    (g.map List.length).sum ≤ n ∧
      (⟨joinSpaceL g⟩ : String).length ≤ n + (g.length - 1) := by
  rw [chunkGroups] at hg
  have hsum := chunkGroupsAux_sum_le n (splitSentencesL (cleanTextL text.data))
    [] 0 rfl (by intro h; simp at h) g hg h2
  refine ⟨hsum, ?_⟩
  rw [strLen, joinSpaceL_length]
  omega

/-- Witness for the amended C8 bound at a concrete two-sentence chunk. -/
theorem chunk_multi_sentence_bound_witness :
    (([['a', 'b', '.'], ['c', 'd', '.']] : List (List Char)) ∈
        chunkGroups 6 "ab. cd.") ∧
      ((([['a', 'b', '.'], ['c', 'd', '.']] : List (List Char)).map
          List.length).sum ≤ 6) :=
  ⟨by decide,
    (chunk_multi_sentence_bound "ab. cd." 6 _ (by decide) (by decide)).1⟩

/-- C6: every record `extract` returns scored strictly above the
threshold; the output is sorted non-increasing by relevance score; and
filtering the output at any fixed score value reproduces the records of
that score in original discovery order (page order, then chunk index) —
the stability of the descending sort. -/
theorem extract_threshold_sorted_stable (sim : String → String → ℚ)
    (thr : ℚ) (chunkSize : Nat) (pages : List XPage) (instr : String) :
    (∀ r ∈ extract sim thr chunkSize pages instr, thr < r.relevanceScore) ∧
    (extract sim thr chunkSize pages instr).Pairwise
      (fun p r => r.relevanceScore ≤ p.relevanceScore) ∧
    ∀ q : ℚ,
      (extract sim thr chunkSize pages instr).filter
          (fun r => decide (r.relevanceScore = q)) =
        (extractCollected sim thr chunkSize pages instr).filter
          (fun r => decide (r.relevanceScore = q)) := by
  refine ⟨?_, ?_, ?_⟩
  · intro r hr
    rw [extract, sortByScoreDesc, mem_foldl_insert] at hr
    rcases hr with h | h
    · simp at h
    · exact mem_extractCollected_gt sim thr chunkSize pages instr r h
  · rw [extract, sortByScoreDesc]
    exact pairwise_foldl_insert _ [] (by simp)
  · intro q
    rw [extract, sortByScoreDesc, filter_foldl_insert q _ [] (by simp)]
    simp

/-- C1: refuted on the code (evidence for the reported bug) — in strict
domain mode starting at `http://shop.example.com`, the crawl fetches and
emits a PageRecord for `http://example.com/about`, whose host differs
from the start host: `_should_crawl` applies the one-hop external
allowance even when `strict_domain` is set, contradicting `crawl`'s own
docstring ("If True, only crawl within the exact subdomain of the
starting URL"). -/
theorem strictDomain_external_fetched :
    ((crawl webShop parseShop pdfExtractNone (initCrawler [] false)
        "http://shop.example.com" 1 true 5).2).map PageRecord.url =
      ["http://shop.example.com", "http://example.com/about"] ∧
    lowerS (urlparseS "http://example.com/about").netloc ≠ "shop.example.com" ∧
    shouldCrawl strictShopState "http://example.com/about"
      (some "http://shop.example.com") = true :=
  ⟨by decide, by decide, by decide⟩

/-- C2: refuted on the code (evidence for the reported bug) — processing
a PDF work item never emits a PageRecord and never writes the page
cache, even when the download succeeds with status 200 and the external
extraction returns non-empty text: the `page_data` construction reads
the unbound name `path`, raising `NameError`, which `_process_pdf`'s own
handler swallows.  The concrete conjuncts evaluate the failing input: a
PDF URL with a 200 response and non-empty extracted text still yields no
record. -/
theorem processPdf_never_emits (web : String → Option FetchOk)
    (pdfE : String → String) (url : String) (depth : Nat)
    (st : CrawlerState) (results : List PageRecord) :
    ((processPdf web pdfE url depth st results).2 = results ∧
      (processPdf web pdfE url depth st results).1.pageCache = st.pageCache) ∧
    pdfExtractDemo "PDFBYTES" ≠ "" ∧
    (processPdf webPdf pdfExtractDemo "http://a.com/doc.pdf" 0
      (initCrawler [] true) []).2 = [] :=
  ⟨⟨(processPdf_keeps web pdfE url depth st results).1,
      (processPdf_keeps web pdfE url depth st results).2.1⟩,
    by decide, by decide⟩

/-- C3: refuted on the code (evidence for the reported bug) — on every
client instance, `get_cache_info()` raises `AttributeError` instead of
returning cache statistics, and `clear_cache()` raises `AttributeError`
after clearing only the two client tiers, leaving the crawler's page
cache untouched: the two crawler-side functions are defined at module
level in crawler.py (column-0 `def`, lines 645 and 652), so `WebCrawler`
instances do not have them as methods. -/
theorem cacheOps_raise_attributeError (c : RufusClientState) :
    clientGetCacheInfo c = Except.error PyError.attributeError ∧
    (clientClearCache c).2 = Except.error PyError.attributeError ∧
    (clientClearCache c).1.crawler.pageCache = c.crawler.pageCache := by
  have h1 : "get_cache_info" ∉ webCrawlerMethodNames := by decide
  have h2 : "clear_cache" ∉ webCrawlerMethodNames := by decide
  refine ⟨?_, ?_, ?_⟩ <;>
    simp [clientGetCacheInfo, clientClearCache, h1, h2]

/-- C4 (counterexample): the crawl of `webFrag` fetches both
`http://a.com/p` and `http://a.com/p#x` — two distinct raw URL strings
with identical normalized forms — because the visited check uses the
exact URL string, not the normalized URL. -/
theorem fetch_normalized_duplicate_cex :
    (crawl webFrag parseFrag pdfExtractNone (initCrawler [] false)
        "http://a.com/" 1 false 5).1.fetchedLog =
      ["http://a.com/", "http://a.com/p", "http://a.com/p#x"] ∧
    normalizeUrl "http://a.com/p" = normalizeUrl "http://a.com/p#x" ∧
    ("http://a.com/p" : String) ≠ "http://a.com/p#x" :=
  ⟨by decide, by decide, by decide⟩

/-- C4 (amended): within one `crawl()` invocation the list of fetched
raw URL strings has no duplicates — deduplication is by exact URL
string, so each raw URL is fetched at most once, while URLs differing
only by fragment, trailing slash or an index file count as distinct and
may each be fetched once. -/
theorem crawl_fetchedLog_nodup (web : String → Option FetchOk)
    (parse : String → Soup) (pdfE : String → String) (st : CrawlerState)
    (startUrl : String) (maxD : Nat) (strict : Bool) (fuel : Nat) :
    (crawl web parse pdfE st startUrl maxD strict fuel).1.fetchedLog.Nodup := by
  rw [crawl]
  refine (crawlRec_fetchInv web parse pdfE maxD fuel startUrl 0 _ [] [] none
    (fetchInv_of_nil _ ?_)).1
  split <;> rfl

/-- C5 (counterexample): `http://example.com/page` and
`http://example.com/page/` normalize identically, yet their page-cache
keys (MD5 of the raw URL string) differ — the page cache is not keyed by
the normalized URL. -/
theorem pageCacheKey_not_normalized_cex :
    normalizeUrl "http://example.com/page" =
        normalizeUrl "http://example.com/page/" ∧
      getPageCacheKey "http://example.com/page" ≠
        getPageCacheKey "http://example.com/page/" :=
  ⟨by decide, by decide⟩

/-- C5 (amended): the page cache is keyed by the MD5 hash of the raw URL
string as given: an incoming work item whose exact URL string hashes to
a stored key is served from the cache (re-stamped with the current depth
and path, marked visited, and — at `max_depth`, where no link expansion
happens — with no fetch performed), while URLs that merely normalize
identically get distinct keys and miss. -/
theorem pageCache_hit_on_raw_url (web : String → Option FetchOk)
    (parse : String → Soup) (pdfE : String → String) (maxD f : Nat)
    (url : String) (st : CrawlerState) (results : List PageRecord)
    (path : List PathNode) (parent : Option String) (e : CacheEntry)
    (hv : url ∉ st.visitedUrls)
    (hsc : shouldCrawl st url parent = true)
    (hc : dictFind (getPageCacheKey url) st.pageCache = some e) :
    crawlRec web parse pdfE maxD (f + 1) url maxD st results path parent =
      ({ st with visitedUrls := url :: st.visitedUrls },
        results ++ [restamp e maxD path]) := by
  rw [crawlRec]
  rw [if_neg ?hneg]
  case hneg =>
    push_neg
    refine ⟨le_refl _, ?_, hsc⟩
    simpa using hv
  dsimp only
  rw [hc]
  dsimp only
  rw [if_neg ?hneg2]
  case hneg2 =>
    intro hand
    exact absurd hand.1 (lt_irrefl maxD)

/-- Witness: the concrete cache-hit evaluation for the amended C5. -/
theorem pageCache_hit_on_raw_url_witness :
    crawlRec webNone parseNone pdfExtractNone 0 1 "http://a.com/x" 0
      cacheWitnessState [] [] none =
      ({ cacheWitnessState with visitedUrls := ["http://a.com/x"] },
        [restamp cacheWitnessEntry 0 []]) :=
  pageCache_hit_on_raw_url webNone parseNone pdfExtractNone 0 0 "http://a.com/x"
    cacheWitnessState [] [] none cacheWitnessEntry (by decide) (by decide)
    (by decide)

/-- C9: depth bound — every PageRecord emitted by a `crawl` invocation
has `0 ≤ depth ≤ max_depth` (children are only followed at `depth + 1`
below `max_depth`, and the entry gate rejects depths beyond the bound). -/
theorem pageRecord_depth_bound (web : String → Option FetchOk)
    (parse : String → Soup) (pdfE : String → String) (st : CrawlerState)
    (startUrl : String) (maxD : Nat) (strict : Bool) (fuel : Nat)
    (r : PageRecord)
    (hr : r ∈ (crawl web parse pdfE st startUrl maxD strict fuel).2) :
    r.depth ≤ maxD ∧ 0 ≤ r.depth := by
  rw [crawl] at hr
  rcases crawlRec_depth web parse pdfE maxD fuel startUrl 0 _ [] [] none r hr
    with h | h
  · simp at h
  · exact ⟨h, Nat.zero_le _⟩

/-- Witness: the depth bound applied to the first record of the concrete
`webShop` crawl. -/
theorem pageRecord_depth_bound_witness :
    shopFirstRecord.depth ≤ 1 ∧ 0 ≤ shopFirstRecord.depth :=
  pageRecord_depth_bound webShop parseShop pdfExtractNone
    (initCrawler [] false) "http://shop.example.com" 1 true 5
    shopFirstRecord (by decide)

/-- C10: the constructor-supplied allowed-domains set has no effect on
any crawl — `crawl` overwrites the allowed-domains set from the start
URL's host and the strict flag before any use, so two crawler instances
differing only in that constructor argument produce identical crawl
results (and identical final states). -/
theorem crawl_ignores_init_allowedDomains (d1 d2 : List String)
    (parsePdfs : Bool) (web : String → Option FetchOk) (parse : String → Soup)
    (pdfE : String → String) (startUrl : String) (maxD : Nat) (strict : Bool)
    (fuel : Nat) :
    crawl web parse pdfE (initCrawler d1 parsePdfs) startUrl maxD strict fuel =
      crawl web parse pdfE (initCrawler d2 parsePdfs) startUrl maxD strict fuel := by
  rw [crawl, crawl]
  cases strict <;> rfl

end Rufus
